import Mathlib

/-!
Verification of the checkpoint format abstraction and configuration-validation
subsystem of the Fast-LLM training framework, shallowly embedded from
`fast_llm/engine/checkpoint/config.py` and `fast_llm/engine/optimizer/config.py`.

Structured dicts (raw configuration input) are modelled as association lists from
string keys to a small dynamic value type; python `warnings.warn` calls are modelled
by counting emitted warnings.  Helpers of the configuration framework
(`fast_llm/config.py`, `fast_llm/utils.py`) that are not part of the sources are
modelled from the spec where noted.
-/

namespace FastLLM

/-! ## Load-scope policy: `ModelConfigType` (checkpoint/config.py, lines 84-100) -/

/-- The closed enumeration `ModelConfigType` of `fast_llm/engine/checkpoint/config.py`:
values `none`, `architecture`, `model`, `fast_llm`. -/
inductive ModelConfigType where
  | none
  | architecture
  | model
  | fast_llm
deriving DecidableEq, Repr

namespace ModelConfigType

/-- `load_architecture`: `self != ModelConfigType.none`. -/
def load_architecture (c : ModelConfigType) : Bool :=
  c != ModelConfigType.none

/-- `load_base_model`: `self in (ModelConfigType.model, ModelConfigType.fast_llm)`. -/
def load_base_model (c : ModelConfigType) : Bool :=
  c == ModelConfigType.model || c == ModelConfigType.fast_llm

/-- `load_fast_llm`: `self == ModelConfigType.fast_llm`. -/
def load_fast_llm (c : ModelConfigType) : Bool :=
  c == ModelConfigType.fast_llm

end ModelConfigType

/-! ## Checkpoint format descriptors (checkpoint/config.py, lines 44-81) -/

/-- A `CheckpointFormat` descriptor: the class-level capability flags of
`fast_llm/engine/checkpoint/config.py`.  The handler factory performs imports and
is outside the embedding. -/
structure CheckpointFormat where
  name : String
  support_optimizer : Bool := true
  support_saving : Bool := true
  support_loading : Bool := true
  enforce_architecture_match : Bool := false
deriving DecidableEq, Repr

/-- `DistributedCheckpointFormat`: name `"distributed"`, `enforce_architecture_match = True`. -/
def DistributedCheckpointFormat : CheckpointFormat :=
  { name := "distributed", enforce_architecture_match := true }

/-- `StateDictCheckpointFormat`: name `"state_dict"`, all flags at their base-class defaults. -/
def StateDictCheckpointFormat : CheckpointFormat :=
  { name := "state_dict" }

/-! ## `CheckpointLoadMetadataConfig` validation (checkpoint/config.py, lines 194-211) -/

/-- The fields of `CheckpointLoadMetadataConfig` relevant to its `_validate` override:
the resolved `format` descriptor and the `load_config` scope (default `architecture`). -/
structure CheckpointLoadMetadataConfig where
  format : CheckpointFormat := StateDictCheckpointFormat
  load_config : ModelConfigType := ModelConfigType.architecture
deriving DecidableEq, Repr

namespace CheckpointLoadMetadataConfig

/-- The check added by `CheckpointLoadMetadataConfig._validate` on top of the generic
field validation: `if self.format.enforce_architecture_match: assert
self.load_config.load_architecture`.  Returns `true` when validation passes and
`false` when the assertion fires (the spec's `ScopeViolation`). -/
def validateOk (c : CheckpointLoadMetadataConfig) : Bool :=
  !c.format.enforce_architecture_match || c.load_config.load_architecture

/-- The two possible values of `compare_log_fn`: the exception class `ValueError`
(hard error) or `logger.warning` (logged warning). -/
inductive CompareLogFn where
  | valueError
  | loggerWarning
deriving DecidableEq, Repr

/-- `compare_log_fn`: `ValueError if self.load_config.load_architecture else logger.warning`. -/
def compare_log_fn (c : CheckpointLoadMetadataConfig) : CompareLogFn :=
  if c.load_config.load_architecture then CompareLogFn.valueError
  else CompareLogFn.loggerWarning

end CheckpointLoadMetadataConfig

/-! ## Field-level validators (checkpoint/config.py lines 168-181, optimizer/config.py lines 53-64) -/

/-- Modelled from the spec: `Assert.geq` of `fast_llm/utils.py` (not under the
sources) checks that its first argument is greater than or equal to the second;
`check_field` turns a failure into an `InvalidConfiguration` error at validation
time.  Returns `true` when the field value passes. -/
def assertGeq (x threshold : Int) : Bool :=
  threshold ≤ x

/-- The validator of the `parameters_per_file` field of `CheckpointSaveConfigBase`:
`valid=check_field(Assert.geq, 2**20)`. -/
def parameters_per_file_valid (x : Int) : Bool :=
  assertGeq x (2 ^ 20)

/-- The declared default of `parameters_per_file`: `2**32`. -/
def parameters_per_file_default : Int := 2 ^ 32

/-- Modelled from the spec: `Assert.in_range_incl` of `fast_llm/utils.py` (not under
the sources) checks that its first argument lies in the inclusive range given by the
other two.  Float fields are embedded as rationals; the check is a pure comparison. -/
def assertInRangeIncl (x lo hi : ℚ) : Bool :=
  decide (lo ≤ x) && decide (x ≤ hi)

/-- The validator shared by the `adam_beta1` and `adam_beta2` fields of
`OptimizerConfig`: `valid=check_field(Assert.in_range_incl, 0, 1)`. -/
def adam_beta_valid (x : ℚ) : Bool :=
  assertInRangeIncl x 0 1

/-! ## Structured dicts and the `_from_dict` deprecation remapping -/

/-- A dynamic value of a raw configuration dict, covering the value shapes the
`_from_dict` overrides inspect: strings, booleans and python `None`. -/
inductive DVal where
  | dStr : String → DVal
  | dBool : Bool → DVal
  | dNone : DVal
deriving DecidableEq, Repr

/-- A raw configuration dict: an insertion-ordered association list, as python dicts
preserve insertion order. -/
abbrev Dict := List (String × DVal)

/-- `d.get(key)` / `key in d`. -/
def dictGet (d : Dict) (key : String) : Option DVal :=
  match d with
  | [] => Option.none
  | (k, v) :: rest => if k = key then some v else dictGet rest key

/-- `d[key] = value`: replace the value in place when the key exists (python dicts
keep the original position), otherwise append. -/
def dictSet (d : Dict) (key : String) (value : DVal) : Dict :=
  match d with
  | [] => [(key, value)]
  | (k, v) :: rest =>
      if k = key then (k, value) :: rest else (k, v) :: dictSet rest key value

/-- `del d[key]`. -/
def dictDel (d : Dict) (key : String) : Dict :=
  match d with
  | [] => []
  | (k, v) :: rest => if k = key then rest else (k, v) :: dictDel rest key

/-- Modelled from the spec: `Config._handle_renamed_field` of the configuration
framework (`fast_llm/config.py`, not under the sources).  When the old key is
present its value is moved to the new key, and exactly one deprecation warning is
emitted; otherwise the dict is unchanged and nothing is warned.  The second
component counts emitted warnings. -/
def handleRenamedField (d : Dict) (oldKey newKey : String) : Dict × Nat :=
  match dictGet d oldKey with
  | some v => (dictSet (dictDel d oldKey) newKey v, 1)
  | Option.none => (d, 0)

/-! ## `CheckpointConfigBase._from_dict` (checkpoint/config.py, lines 128-147) -/

/-- The dict surgery of `CheckpointConfigBase._from_dict` before the call to
`super()._from_dict`: rename `imported_type` to `model_type`; when `model_type` is
present, warn, replace `format` by the `model_type` value (or `"auto"` when that is
`None`) only if the current `format` value is `"huggingface"` or `"external"`, and
delete `model_type`.  The second component counts emitted warnings. -/
def checkpointConfigBaseFromDictPre (d : Dict) : Dict × Nat :=
  let (d1, w1) := handleRenamedField d "imported_type" "model_type"
  match dictGet d1 "model_type" with
  | some mt =>
      let d2 :=
        if dictGet d1 "format" = some (DVal.dStr "huggingface") ∨
            dictGet d1 "format" = some (DVal.dStr "external") then
          dictSet d1 "format" (if mt = DVal.dNone then DVal.dStr "auto" else mt)
        else d1
      (dictDel d2 "model_type", w1 + 1)
  | Option.none => (d1, w1)

/-- Modelled from the spec: the framework's `Config._from_dict` assigns each declared
field from the dict entry of the same name, falling back to the declared default.
For `CheckpointConfigBase` the declared field is `format`, with default
`StateDictCheckpointFormat` (serialized as its name `"state_dict"`); a string entry
stands for the format of that name, to be resolved in `setup`.  Returns the format
name of the parsed config together with the warning count of the preprocessing. -/
def checkpointConfigBaseFromDict (d : Dict) : String × Nat :=
  let (d1, w) := checkpointConfigBaseFromDictPre d
  (match dictGet d1 "format" with
   | some (DVal.dStr s) => s
   | _ => StateDictCheckpointFormat.name, w)

/-! ## `CheckpointStateConfigBase` (checkpoint/config.py, lines 150-165) -/

/-- The declared fields of `CheckpointStateConfigBase`: `model_weights`
(default `True`) and `optimizer_state` (default `False`). -/
structure CheckpointStateConfigBase where
  model_weights : Bool := true
  optimizer_state : Bool := false
deriving DecidableEq, Repr

/-- The dict surgery of `CheckpointStateConfigBase._from_dict` before the call to
`super()._from_dict`: rename `load_weights` to `model_weights` and `load_optimizer`
to `optimizer_state`.  The second component counts emitted warnings. -/
def checkpointStateConfigBaseFromDictPre (d : Dict) : Dict × Nat :=
  let (d1, w1) := handleRenamedField d "load_weights" "model_weights"
  let (d2, w2) := handleRenamedField d1 "load_optimizer" "optimizer_state"
  (d2, w1 + w2)

/-- Modelled from the spec: the framework's `Config._from_dict` assigns each declared
field from the dict entry of the same name, falling back to the declared default.
For `CheckpointStateConfigBase` the fields are the booleans `model_weights` and
`optimizer_state`.  Returns the parsed config together with the warning count. -/
def checkpointStateConfigBaseFromDict (d : Dict) : CheckpointStateConfigBase × Nat :=
  let (d1, w) := checkpointStateConfigBaseFromDictPre d
  ({ model_weights :=
      match dictGet d1 "model_weights" with
      | some (DVal.dBool b) => b
      | _ => true,
     optimizer_state :=
      match dictGet d1 "optimizer_state" with
      | some (DVal.dBool b) => b
      | _ => false }, w)

/-! ## `CheckpointConfigBase.setup` and the validation lifecycle (lines 113-126) -/

/-- The mutable state of a `CheckpointConfigBase` object relevant to `setup`: the
`format` field (a name string until resolved, then a resolved descriptor) and the
framework's `_validated` flag. -/
structure CheckpointConfigBaseState where
  format : String
  validated : Bool := false
deriving DecidableEq, Repr

/-- `CheckpointConfigBase.setup(model_config)`: `assert not self._validated;
self.format = model_config.get_checkpoint_format(self.format)`.  The model config's
registry lookup is abstracted as the function `resolve`; `Option.none` models the
`AssertionError`. -/
def CheckpointConfigBaseState.setup (s : CheckpointConfigBaseState)
    (resolve : String → String) : Option CheckpointConfigBaseState :=
  if s.validated then Option.none
  else some { format := resolve s.format, validated := s.validated }

/-- Modelled from the spec: the framework's validation pass transitions the
`_validated` flag from false to true, irreversibly. -/
def CheckpointConfigBaseState.validate (s : CheckpointConfigBaseState) :
    CheckpointConfigBaseState :=
  { s with validated := true }

/-! ## Metadata codec (checkpoint/config.py, lines 26-41)

`export_safetensors_metadata` stringifies scalar values with python `str` and
serializes other values with `yaml.safe_dump`; `import_safetensors_metadata` parses
every value with `yaml.safe_load`.  Metadata values are embedded as `MetaValue`
(strings, arbitrary-precision integers, booleans, and nested sequences/mappings;
floats are outside the embedding).  The yaml library is external to the repository:
its scalar resolution and its dump/load of nested structures are modelled below on
a flow-style subset of the YAML grammar. -/

/-- A metadata value: a scalar (string, int, bool, python `None`) or a nested
sequence/mapping. -/
inductive MetaValue where
  | vStr : String → MetaValue
  | vInt : Int → MetaValue
  | vBool : Bool → MetaValue
  | vNull : MetaValue
  | vList : List MetaValue → MetaValue
  | vMap : List (String × MetaValue) → MetaValue

/-- The ten decimal digit characters, in order. -/
def digitChars : List Char := ['0', '1', '2', '3', '4', '5', '6', '7', '8', '9']

/-- Whether a character is a decimal digit. -/
def isDigitCh (c : Char) : Bool := digitChars.contains c

/-- The numeric value of a digit character (junk `10` on non-digits). -/
def digitVal (c : Char) : Nat := digitChars.indexOf c

/-- The digit character of a value below ten. -/
def digitChar (d : Nat) : Char := digitChars.getD d '0'

/-- The nine nonzero decimal digit characters. -/
def nonzeroDigits : List Char := ['1', '2', '3', '4', '5', '6', '7', '8', '9']

/-- Whether a character is a nonzero decimal digit. -/
def isNonzeroDigitCh (c : Char) : Bool := nonzeroDigits.contains c

/-- The decimal digits of a natural number, most significant first. -/
def natChars (n : Nat) : List Char :=
  if h : n < 10 then [digitChar n]
  else natChars (n / 10) ++ [digitChar (n % 10)]
termination_by n
decreasing_by exact Nat.div_lt_self (by omega) (by omega)

/-- Parse a list of digit characters as a decimal natural number. -/
def parseNat (cs : List Char) : Nat :=
  cs.foldl (fun acc c => acc * 10 + digitVal c) 0

/-- The decimal representation of an integer (python `str` / yaml canonical form). -/
def intChars (n : Int) : List Char :=
  if n < 0 then '-' :: natChars n.natAbs else natChars n.toNat

/-- Parse a decimal integer literal (optional leading minus sign). -/
def intOfChars (cs : List Char) : Int :=
  match cs with
  | [] => 0
  | c :: t => if c = '-' then -(parseNat t : Int) else (parseNat (c :: t) : Int)

/-- The digits of a canonical decimal natural: a single `0`, or a nonzero digit
followed by digits.  This is the decimal branch `(0|[1-9][0-9]*)` of PyYAML's int
resolver, without underscores; a multi-digit literal with a leading zero is octal in
YAML 1.1 and is deliberately not matched. -/
def decDigits (cs : List Char) : Bool :=
  match cs with
  | [] => false
  | c :: t => (c == '0' && t.isEmpty) || (isNonzeroDigitCh c && t.all isDigitCh)

/-- Whether a character list is a plain decimal integer literal of the modelled
fragment: an optional minus sign followed by canonical decimal digits. -/
def isIntString (cs : List Char) : Bool :=
  match cs with
  | [] => false
  | c :: t => if c = '-' then decDigits t else decDigits (c :: t)

/-- The null words of PyYAML's SafeLoader resolver: `~|null|Null|NULL`
(the empty document is handled separately by the loader). -/
def nullWord (cs : List Char) : Bool :=
  decide (cs = ['~']) || decide (cs = ['n', 'u', 'l', 'l']) ||
    decide (cs = ['N', 'u', 'l', 'l']) || decide (cs = ['N', 'U', 'L', 'L'])

/-- `nullWord` on the characters of a string. -/
def isNullStr (s : String) : Bool := nullWord s.data

/-- The boolean-true words of PyYAML's SafeLoader resolver:
`yes|Yes|YES|true|True|TRUE|on|On|ON` (single `y`/`Y` are not resolved). -/
def boolTrueWord (cs : List Char) : Bool :=
  decide (cs = ['y', 'e', 's']) || decide (cs = ['Y', 'e', 's']) ||
    decide (cs = ['Y', 'E', 'S']) ||
    decide (cs = ['t', 'r', 'u', 'e']) || decide (cs = ['T', 'r', 'u', 'e']) ||
    decide (cs = ['T', 'R', 'U', 'E']) ||
    decide (cs = ['o', 'n']) || decide (cs = ['O', 'n']) || decide (cs = ['O', 'N'])

/-- `boolTrueWord` on the characters of a string. -/
def isBoolTrueStr (s : String) : Bool := boolTrueWord s.data

/-- The boolean-false words of PyYAML's SafeLoader resolver:
`no|No|NO|false|False|FALSE|off|Off|OFF`. -/
def boolFalseWord (cs : List Char) : Bool :=
  decide (cs = ['n', 'o']) || decide (cs = ['N', 'o']) || decide (cs = ['N', 'O']) ||
    decide (cs = ['f', 'a', 'l', 's', 'e']) || decide (cs = ['F', 'a', 'l', 's', 'e']) ||
    decide (cs = ['F', 'A', 'L', 'S', 'E']) ||
    decide (cs = ['o', 'f', 'f']) || decide (cs = ['O', 'f', 'f']) ||
    decide (cs = ['O', 'F', 'F'])

/-- `boolFalseWord` on the characters of a string. -/
def isBoolFalseStr (s : String) : Bool := boolFalseWord s.data

/-- Whether a character is an ASCII letter. -/
def letterOK (c : Char) : Bool :=
  ('a' ≤ c && c ≤ 'z') || ('A' ≤ c && c ≤ 'Z')

/-- A character that can never contribute to any implicit resolution or structural
syntax of the loader: an ASCII letter or an underscore.  Digits, signs, dots,
whitespace, and all YAML indicator characters are excluded. -/
def plainSafeChar (c : Char) : Bool :=
  letterOK c || c == '_'

/-- A plain scalar of the modelled fragment that is manifestly inert: nonempty and
made only of letters/underscores.  Such a document is a plain string for the real
loader unless it is one of the null/bool words, which are tested separately. -/
def plainSafeStr (s : String) : Bool :=
  !s.data.isEmpty && s.data.all plainSafeChar

/-- Modelled from the yaml library (external to the repository): PyYAML SafeLoader
plain-scalar resolution, as a partial function.  The null words resolve to `None`,
the YAML 1.1 boolean words to booleans, canonical decimal integer literals to
integers, and inert letter/underscore words to themselves.  Every other plain
scalar (floats, hex/octal/underscore/sexagesimal ints, timestamps, strings with
digits, signs, whitespace or indicator characters) is outside the modelled fragment
and yields `none`: the model never asserts a value there.  The matched classes are
disjoint, so the test order is immaterial. -/
def resolveScalar (s : String) : Option MetaValue :=
  if isNullStr s then some MetaValue.vNull
  else if isBoolTrueStr s then some (MetaValue.vBool true)
  else if isBoolFalseStr s then some (MetaValue.vBool false)
  else if isIntString s.data then some (MetaValue.vInt (intOfChars s.data))
  else if plainSafeStr s then some (MetaValue.vStr s)
  else Option.none

/-- Characters that may appear in an unquoted plain scalar inside a flow
collection: everything except the structural delimiters of the flow grammar. -/
def atomChar (c : Char) : Bool :=
  !(c == ',' || c == ']' || c == '}' || c == ':' || c == '\'' || c == '[' || c == '{')

/-- Whether a suffix may legally follow a plain scalar: empty, or starting with a
structural delimiter. -/
def delimOk (cs : List Char) : Bool :=
  match cs with
  | [] => true
  | c :: _ => !atomChar c

mutual

/-- Modelled from the yaml library (external to the repository): the serialized
form of a value, in single-quoted flow style.  Scalars print as plain scalars,
strings single-quoted, sequences as `[a,b]`, mappings as `{'k':v}`. -/
def printVal : MetaValue → List Char
  | MetaValue.vStr s => '\'' :: (s.data ++ ['\''])
  | MetaValue.vInt n => intChars n
  | MetaValue.vBool true => ['t', 'r', 'u', 'e']
  | MetaValue.vBool false => ['f', 'a', 'l', 's', 'e']
  | MetaValue.vNull => ['n', 'u', 'l', 'l']
  | MetaValue.vList [] => ['[', ']']
  | MetaValue.vList (v :: vs) => '[' :: (printListItems (v :: vs) ++ [']'])
  | MetaValue.vMap [] => ['{', '}']
  | MetaValue.vMap (kv :: kvs) => '{' :: (printMapItems (kv :: kvs) ++ ['}'])

/-- Comma-separated serialized sequence items. -/
def printListItems : List MetaValue → List Char
  | [] => []
  | [v] => printVal v
  | v :: vs => printVal v ++ ',' :: printListItems vs

/-- Comma-separated serialized mapping entries, keys single-quoted. -/
def printMapItems : List (String × MetaValue) → List Char
  | [] => []
  | [(k, v)] => '\'' :: (k.data ++ '\'' :: ':' :: printVal v)
  | (k, v) :: kvs => ('\'' :: (k.data ++ '\'' :: ':' :: printVal v)) ++ ',' :: printMapItems kvs

end

mutual

/-- Fuel needed by the parser for a value. -/
def needVal : MetaValue → Nat
  | MetaValue.vStr _ => 1
  | MetaValue.vInt _ => 1
  | MetaValue.vBool _ => 1
  | MetaValue.vNull => 1
  | MetaValue.vList vs => 1 + needList vs
  | MetaValue.vMap kvs => 1 + needMap kvs

/-- Fuel needed by the parser for a list of sequence items. -/
def needList : List MetaValue → Nat
  | [] => 1
  | v :: vs => 1 + needVal v + needList vs

/-- Fuel needed by the parser for a list of mapping entries. -/
def needMap : List (String × MetaValue) → Nat
  | [] => 1
  | (_, v) :: kvs => 1 + needVal v + needMap kvs

end

mutual

/-- Whether a value is faithfully representable in the modelled single-quoted flow
grammar: every string (value or mapping key) at any depth is free of the quote
character. -/
def goodVal : MetaValue → Bool
  | MetaValue.vStr s => s.data.all fun d => !(d == '\'')
  | MetaValue.vInt _ => true
  | MetaValue.vBool _ => true
  | MetaValue.vNull => true
  | MetaValue.vList vs => goodList vs
  | MetaValue.vMap kvs => goodMap kvs

/-- `goodVal` on every item of a sequence. -/
def goodList : List MetaValue → Bool
  | [] => true
  | v :: vs => goodVal v && goodList vs

/-- `goodVal` on every entry of a mapping, and quote-free keys. -/
def goodMap : List (String × MetaValue) → Bool
  | [] => true
  | (k, v) :: kvs => (k.data.all fun d => !(d == '\'')) && goodVal v && goodMap kvs

end

mutual

/-- Modelled from the yaml library (external to the repository): parser for a
single value of the flow grammar, returning the value and the unconsumed suffix. -/
def parseVal : Nat → List Char → Option (MetaValue × List Char)
  | 0, _ => Option.none
  | fuel + 1, cs =>
    match cs with
    | [] => Option.none
    | c :: rest =>
      if c = '\'' then
        let s := rest.takeWhile (fun d => !(d == '\''))
        let r := rest.dropWhile (fun d => !(d == '\''))
        if r.head? = some '\'' then some (MetaValue.vStr (String.mk s), r.tail)
        else Option.none
      else if c = '[' then
        if rest.head? = some ']' then some (MetaValue.vList [], rest.tail)
        else (parseListItems fuel rest).map fun p => (MetaValue.vList p.1, p.2)
      else if c = '{' then
        if rest.head? = some '}' then some (MetaValue.vMap [], rest.tail)
        else (parseMapItems fuel rest).map fun p => (MetaValue.vMap p.1, p.2)
      else
        let atom := (c :: rest).takeWhile atomChar
        if atom = [] then Option.none
        else (resolveScalar (String.mk atom)).map
          fun v => (v, (c :: rest).dropWhile atomChar)

/-- Parser for the items of a non-empty flow sequence, consuming the closing `]`. -/
def parseListItems : Nat → List Char → Option (List MetaValue × List Char)
  | 0, _ => Option.none
  | fuel + 1, cs =>
    (parseVal fuel cs).bind fun p =>
      if p.2.head? = some ',' then
        (parseListItems fuel p.2.tail).map fun q => (p.1 :: q.1, q.2)
      else if p.2.head? = some ']' then some ([p.1], p.2.tail)
      else Option.none

/-- Parser for the entries of a non-empty flow mapping, consuming the closing `}`. -/
def parseMapItems : Nat → List Char → Option (List (String × MetaValue) × List Char)
  | 0, _ => Option.none
  | fuel + 1, cs =>
    match cs with
    | [] => Option.none
    | c :: rest =>
      if c = '\'' then
        let k := rest.takeWhile (fun d => !(d == '\''))
        let r := rest.dropWhile (fun d => !(d == '\''))
        if r.head? = some '\'' then
          if r.tail.head? = some ':' then
            (parseVal fuel r.tail.tail).bind fun p =>
              if p.2.head? = some ',' then
                (parseMapItems fuel p.2.tail).map fun q =>
                  ((String.mk k, p.1) :: q.1, q.2)
              else if p.2.head? = some '}' then some ([(String.mk k, p.1)], p.2.tail)
              else Option.none
          else Option.none
        else Option.none
      else Option.none

end

/-- Modelled from the yaml library (external to the repository): `yaml.safe_dump`
restricted to the single-quoted flow subset. -/
def yamlDump (v : MetaValue) : String :=
  String.mk (printVal v)

/-- Modelled from the yaml library (external to the repository): `yaml.safe_load`,
as a partial function.  The empty document loads as `None`; a document starting
with a quote or an opening bracket/brace is parsed by the flow parser; a plain
document is resolved by `resolveScalar`.  Documents outside the modelled fragment —
a failed flow parse, or a plain scalar the resolver does not cover (this includes
every document of the block grammar, which always contains an indicator or
whitespace character) — yield `none`: the model never asserts a value there. -/
def yamlLoad (s : String) : Option MetaValue :=
  match s.data with
  | [] => some MetaValue.vNull
  | c :: _ =>
    if c = '\'' ∨ c = '[' ∨ c = '{' then
      match parseVal (2 * s.data.length + 4) s.data with
      | some (v, []) => some v
      | _ => Option.none
    else resolveScalar s

/-- Whether a value is a scalar: `isinstance(value, (str, int, float, bool))` of the
source (floats are outside the embedding). -/
def isScalar : MetaValue → Bool
  | MetaValue.vStr _ => true
  | MetaValue.vInt _ => true
  | MetaValue.vBool _ => true
  | _ => false

/-- The per-value encoding of `export_safetensors_metadata`:
`str(value) if isinstance(value, (str, int, float, bool)) else yaml.safe_dump(value)`.
Python `str` is the identity on strings, the decimal form on ints, and
`"True"`/`"False"` on booleans. -/
def exportValue : MetaValue → String
  | MetaValue.vStr s => s
  | MetaValue.vInt n => String.mk (intChars n)
  | MetaValue.vBool b => if b then "True" else "False"
  | v => yamlDump v

/-- `export_safetensors_metadata`: stringify every value of the metadata mapping. -/
def export_safetensors_metadata (m : List (String × MetaValue)) : List (String × String) :=
  m.map fun kv => (kv.1, exportValue kv.2)

/-- `import_safetensors_metadata`: `{key: yaml.safe_load(value) for key, value in
metadata.items()}`.  The comprehension applies the loader to every value; since the
loader is modelled partially, the result is defined exactly when every per-value
load falls inside the modelled fragment. -/
def import_safetensors_metadata (m : List (String × String)) :
    Option (List (String × MetaValue)) :=
  match m with
  | [] => some []
  | (k, v) :: t =>
    match yamlLoad v, import_safetensors_metadata t with
    | some w, some ws => some ((k, w) :: ws)
    | _, _ => Option.none

/-- The values of a metadata mapping for which the export/import round trip is
asserted: ints, booleans, `None`, nested structures of the modelled grammar, and
inert plain strings — nonempty, made only of letters/underscores, and not one of
the loader's null/boolean words.  Such strings are exactly plain scalars the real
loader returns unchanged; every string the loader could retype (null/bool words,
int/float/timestamp shapes, block or flow syntax, whitespace) is excluded. -/
def goodTop (v : MetaValue) : Bool :=
  match v with
  | MetaValue.vStr s =>
    plainSafeStr s && !isNullStr s && !isBoolTrueStr s && !isBoolFalseStr s
  | MetaValue.vInt _ => true
  | MetaValue.vBool _ => true
  | MetaValue.vNull => true
  | MetaValue.vList vs => goodList vs
  | MetaValue.vMap kvs => goodMap kvs

/-! ## Codec helper lemmas -/

theorem digitVal_digitChar {d : Nat} (h : d < 10) : digitVal (digitChar d) = d := by
  interval_cases d <;> rfl

theorem isDigitCh_digitChar {d : Nat} (h : d < 10) : isDigitCh (digitChar d) = true := by
  interval_cases d <;> rfl

theorem isDigitCh_props {c : Char} (h : isDigitCh c = true) :
    c ≠ '-' ∧ c ≠ '\'' ∧ c ≠ '[' ∧ c ≠ '{' ∧ c ≠ ']' ∧ c ≠ '}' ∧ atomChar c = true := by
  have hm : c ∈ digitChars := by
    have := List.mem_of_elem_eq_true h
    exact this
  fin_cases hm <;> refine ⟨?_, ?_, ?_, ?_, ?_, ?_, ?_⟩ <;> decide

theorem parseNat_from (n : Nat) :
    ∀ acc, List.foldl (fun acc c => acc * 10 + digitVal c) acc (natChars n) =
      acc * 10 ^ (natChars n).length + n := by
  induction n using Nat.strong_induction_on with
  | _ n ih =>
    intro acc
    rw [natChars]
    by_cases h : n < 10
    · simp [h, digitVal_digitChar h]
    · rw [dif_neg h]
      have hd : n / 10 < n := Nat.div_lt_self (by omega) (by omega)
      simp only [List.foldl_append, List.foldl_cons, List.foldl_nil, List.length_append,
        List.length_cons, List.length_nil]
      rw [ih (n / 10) hd acc, digitVal_digitChar (Nat.mod_lt n (by omega))]
      have hmod := Nat.div_add_mod n 10
      have hpow : 10 ^ ((natChars (n / 10)).length + (0 + 1)) =
          10 ^ (natChars (n / 10)).length * 10 := by
        rw [Nat.zero_add, pow_succ]
      rw [hpow]
      ring_nf
      omega

theorem parseNat_natChars (n : Nat) : parseNat (natChars n) = n := by
  have := parseNat_from n 0
  simpa [parseNat] using this

theorem natChars_all_digits (n : Nat) : ∀ c ∈ natChars n, isDigitCh c = true := by
  induction n using Nat.strong_induction_on with
  | _ n ih =>
    intro c hc
    rw [natChars] at hc
    by_cases h : n < 10
    · rw [dif_pos h] at hc
      simp only [List.mem_singleton] at hc
      exact hc ▸ isDigitCh_digitChar h
    · rw [dif_neg h] at hc
      rcases List.mem_append.1 hc with h1 | h1
      · exact ih (n / 10) (Nat.div_lt_self (by omega) (by omega)) c h1
      · simp only [List.mem_singleton] at h1
        exact h1 ▸ isDigitCh_digitChar (Nat.mod_lt n (by omega))

theorem natChars_ne_nil (n : Nat) : natChars n ≠ [] := by
  rw [natChars]
  by_cases h : n < 10
  · simp [h]
  · simp [h]

/-! ## Integer literal lemmas -/

theorem intChars_all_ok (n : Int) :
    ∀ c ∈ intChars n, isDigitCh c = true ∨ c = '-' := by
  intro c hc
  unfold intChars at hc
  by_cases h : n < 0
  · rw [if_pos h] at hc
    rcases List.mem_cons.1 hc with rfl | h1
    · exact Or.inr rfl
    · exact Or.inl (natChars_all_digits _ c h1)
  · rw [if_neg h] at hc
    exact Or.inl (natChars_all_digits _ c hc)

theorem intChars_ne_nil (n : Int) : intChars n ≠ [] := by
  unfold intChars
  by_cases h : n < 0
  · simp [h]
  · simp [h, natChars_ne_nil]

theorem natChars_head_nonzero (n : Nat) (hn : 1 ≤ n) :
    ∃ c t, natChars n = c :: t ∧ isNonzeroDigitCh c = true := by
  induction n using Nat.strong_induction_on with
  | _ n ih =>
    rw [natChars]
    by_cases h : n < 10
    · rw [dif_pos h]
      refine ⟨digitChar n, [], rfl, ?_⟩
      interval_cases n <;> rfl
    · rw [dif_neg h]
      obtain ⟨c, t, hct, hc⟩ :=
        ih (n / 10) (Nat.div_lt_self (by omega) (by omega)) (by omega)
      exact ⟨c, t ++ [digitChar (n % 10)], by rw [hct]; rfl, hc⟩

theorem decDigits_natChars (n : Nat) : decDigits (natChars n) = true := by
  rcases Nat.eq_zero_or_pos n with rfl | hn
  · rw [natChars]
    simp [decDigits, digitChar, digitChars]
  · obtain ⟨c, t, hct, hc⟩ := natChars_head_nonzero n hn
    have hall : t.all isDigitCh = true := List.all_eq_true.2 fun x hx =>
      natChars_all_digits n x (hct ▸ List.mem_cons_of_mem c hx)
    rw [hct]
    simp [decDigits, hc, hall]

theorem isIntString_intChars (n : Int) : isIntString (intChars n) = true := by
  unfold intChars
  by_cases h : n < 0
  · rw [if_pos h]
    have hred : isIntString ('-' :: natChars n.natAbs) = decDigits (natChars n.natAbs) := by
      simp [isIntString]
    rw [hred, decDigits_natChars]
  · rw [if_neg h]
    obtain ⟨c, t, hct⟩ := List.exists_cons_of_ne_nil (natChars_ne_nil n.toNat)
    rw [hct]
    have hcd : isDigitCh c = true := natChars_all_digits n.toNat c (hct ▸ List.mem_cons_self c t)
    simp only [isIntString, if_neg (isDigitCh_props hcd).1]
    rw [← hct]
    exact decDigits_natChars n.toNat

theorem intOfChars_intChars (n : Int) : intOfChars (intChars n) = n := by
  unfold intChars
  by_cases h : n < 0
  · rw [if_pos h]
    have hred : intOfChars ('-' :: natChars n.natAbs) =
        -(parseNat (natChars n.natAbs) : Int) := rfl
    rw [hred, parseNat_natChars]
    omega
  · rw [if_neg h]
    obtain ⟨c, t, hct⟩ := List.exists_cons_of_ne_nil (natChars_ne_nil n.toNat)
    rw [hct]
    have hcd : isDigitCh c = true := natChars_all_digits n.toNat c (hct ▸ List.mem_cons_self c t)
    simp only [intOfChars, if_neg (isDigitCh_props hcd).1]
    rw [← hct, parseNat_natChars]
    omega

theorem digit_or_minus_ne {c x : Char} (h : isDigitCh c = true ∨ c = '-')
    (hx1 : isDigitCh x = false) (hx2 : x ≠ '-') : c ≠ x := by
  rcases h with hd | rfl
  · intro heq
    rw [heq, hx1] at hd
    exact Bool.noConfusion hd
  · exact fun heq => hx2 heq.symm

theorem nullWord_false {c : Char} {t : List Char}
    (h1 : c ≠ '~') (h2 : c ≠ 'n') (h3 : c ≠ 'N') : nullWord (c :: t) = false := by
  simp [nullWord, h1, h2, h3]

theorem boolTrueWord_false {c : Char} {t : List Char}
    (h1 : c ≠ 'y') (h2 : c ≠ 'Y') (h3 : c ≠ 't') (h4 : c ≠ 'T')
    (h5 : c ≠ 'o') (h6 : c ≠ 'O') : boolTrueWord (c :: t) = false := by
  simp [boolTrueWord, h1, h2, h3, h4, h5, h6]

theorem boolFalseWord_false {c : Char} {t : List Char}
    (h1 : c ≠ 'n') (h2 : c ≠ 'N') (h3 : c ≠ 'f') (h4 : c ≠ 'F')
    (h5 : c ≠ 'o') (h6 : c ≠ 'O') : boolFalseWord (c :: t) = false := by
  simp [boolFalseWord, h1, h2, h3, h4, h5, h6]

theorem resolveScalar_intChars (n : Int) :
    resolveScalar (String.mk (intChars n)) = some (MetaValue.vInt n) := by
  obtain ⟨c, t, hct⟩ := List.exists_cons_of_ne_nil (intChars_ne_nil n)
  have hm := intChars_all_ok n c (hct ▸ List.mem_cons_self c t)
  have hne : ∀ x : Char, isDigitCh x = false → x ≠ '-' → c ≠ x :=
    fun x hx1 hx2 => digit_or_minus_ne hm hx1 hx2
  have hnull : isNullStr (String.mk (intChars n)) = false := by
    show nullWord (intChars n) = false
    rw [hct]
    exact nullWord_false (hne '~' (by decide) (by decide)) (hne 'n' (by decide) (by decide))
      (hne 'N' (by decide) (by decide))
  have hbt : isBoolTrueStr (String.mk (intChars n)) = false := by
    show boolTrueWord (intChars n) = false
    rw [hct]
    exact boolTrueWord_false (hne 'y' (by decide) (by decide)) (hne 'Y' (by decide) (by decide))
      (hne 't' (by decide) (by decide)) (hne 'T' (by decide) (by decide))
      (hne 'o' (by decide) (by decide)) (hne 'O' (by decide) (by decide))
  have hbf : isBoolFalseStr (String.mk (intChars n)) = false := by
    show boolFalseWord (intChars n) = false
    rw [hct]
    exact boolFalseWord_false (hne 'n' (by decide) (by decide)) (hne 'N' (by decide) (by decide))
      (hne 'f' (by decide) (by decide)) (hne 'F' (by decide) (by decide))
      (hne 'o' (by decide) (by decide)) (hne 'O' (by decide) (by decide))
  simp only [resolveScalar]
  rw [if_neg (by simp [hnull]), if_neg (by simp [hbt]), if_neg (by simp [hbf])]
  rw [if_pos (by simpa using isIntString_intChars n)]
  rw [intOfChars_intChars]

/-! ## takeWhile / dropWhile helpers -/

theorem takeWhile_append_all {p : Char → Bool} {l l' : List Char}
    (h : ∀ c ∈ l, p c = true)
    (h' : l' = [] ∨ ∃ c t, l' = c :: t ∧ p c = false) :
    (l ++ l').takeWhile p = l ∧ (l ++ l').dropWhile p = l' := by
  induction l with
  | nil =>
    rcases h' with rfl | ⟨c, t, rfl, hc⟩
    · simp
    · simp [List.takeWhile_cons, List.dropWhile_cons, hc]
  | cons a l ih =>
    have ha : p a = true := h a (List.mem_cons_self a l)
    have := ih (fun c hc => h c (List.mem_cons_of_mem a hc))
    simp [List.takeWhile_cons, List.dropWhile_cons, ha, this.1, this.2]

theorem delimOk_cases {rest : List Char} (h : delimOk rest = true) :
    rest = [] ∨ ∃ c t, rest = c :: t ∧ atomChar c = false := by
  cases rest with
  | nil => exact Or.inl rfl
  | cons c t =>
    refine Or.inr ⟨c, t, rfl, ?_⟩
    simpa [delimOk] using h

theorem quote_p_false : (fun d => !(d == '\'')) '\'' = false := by decide

/-! ## Printed-form head and atom lemmas -/

theorem printVal_head (v : MetaValue) :
    ∃ c t, printVal v = c :: t ∧ c ≠ ']' ∧ c ≠ '}' := by
  cases v with
  | vStr s => exact ⟨'\'', _, rfl, by decide, by decide⟩
  | vInt n =>
    obtain ⟨c, t, hct⟩ := List.exists_cons_of_ne_nil (intChars_ne_nil n)
    have hm := intChars_all_ok n c (hct ▸ List.mem_cons_self c t)
    refine ⟨c, t, hct, ?_, ?_⟩
    · rcases hm with hd | rfl
      · exact (isDigitCh_props hd).2.2.2.2.1
      · decide
    · rcases hm with hd | rfl
      · exact (isDigitCh_props hd).2.2.2.2.2.1
      · decide
  | vBool b => cases b <;> exact ⟨_, _, rfl, by decide, by decide⟩
  | vNull => exact ⟨'n', _, rfl, by decide, by decide⟩
  | vList vs =>
    cases vs with
    | nil => exact ⟨'[', _, rfl, by decide, by decide⟩
    | cons v vs => exact ⟨'[', _, rfl, by decide, by decide⟩
  | vMap kvs =>
    cases kvs with
    | nil => exact ⟨'{', _, rfl, by decide, by decide⟩
    | cons kv kvs => exact ⟨'{', _, rfl, by decide, by decide⟩

theorem intChars_all_atom (n : Int) : ∀ c ∈ intChars n, atomChar c = true := by
  intro c hc
  rcases intChars_all_ok n c hc with hd | rfl
  · exact (isDigitCh_props hd).2.2.2.2.2.2
  · decide

theorem intChars_head_not_marker (n : Int) {c : Char} {t : List Char}
    (hct : intChars n = c :: t) : c ≠ '\'' ∧ c ≠ '[' ∧ c ≠ '{' := by
  rcases intChars_all_ok n c (hct ▸ List.mem_cons_self c t) with hd | rfl
  · exact ⟨(isDigitCh_props hd).2.1, (isDigitCh_props hd).2.2.1, (isDigitCh_props hd).2.2.2.1⟩
  · exact ⟨by decide, by decide, by decide⟩

/-! ## Fuel lemmas -/

theorem needVal_pos (v : MetaValue) : 1 ≤ needVal v := by
  cases v <;> simp [needVal]

theorem needList_pos (vs : List MetaValue) : 1 ≤ needList vs := by
  cases vs <;> simp [needList] <;> omega

theorem needMap_pos (kvs : List (String × MetaValue)) : 1 ≤ needMap kvs := by
  cases kvs with
  | nil => simp [needMap]
  | cons kv kvs => obtain ⟨k, v⟩ := kv; simp [needMap]; omega

mutual

theorem needVal_le_print : ∀ v : MetaValue, needVal v + 1 ≤ 2 * (printVal v).length
  | MetaValue.vStr s => by simp [needVal, printVal]
  | MetaValue.vInt n => by
    have h := List.length_pos.2 (intChars_ne_nil n)
    simp [needVal, printVal]; omega
  | MetaValue.vBool b => by cases b <;> simp [needVal, printVal]
  | MetaValue.vNull => by simp [needVal, printVal]
  | MetaValue.vList [] => by simp [needVal, needList, printVal]
  | MetaValue.vList (v :: vs) => by
    have h := needList_le_print (v :: vs)
    simp only [needVal, printVal, List.length_cons, List.length_append,
      List.length_singleton]
    omega
  | MetaValue.vMap [] => by simp [needVal, needMap, printVal]
  | MetaValue.vMap (kv :: kvs) => by
    have h := needMap_le_print (kv :: kvs)
    simp only [needVal, printVal, List.length_cons, List.length_append,
      List.length_singleton]
    omega

theorem needList_le_print : ∀ vs : List MetaValue,
    needList vs ≤ 2 * (printListItems vs).length + 1
  | [] => by simp [needList, printListItems]
  | [v] => by
    have h := needVal_le_print v
    simp only [needList, printListItems]
    omega
  | v :: w :: vs => by
    have h1 := needVal_le_print v
    have h2 := needList_le_print (w :: vs)
    simp only [needList, printListItems, List.length_append, List.length_cons] at h2 ⊢
    omega

theorem needMap_le_print : ∀ kvs : List (String × MetaValue),
    needMap kvs ≤ 2 * (printMapItems kvs).length + 1
  | [] => by simp [needMap, printMapItems]
  | [(k, v)] => by
    have h := needVal_le_print v
    simp only [needMap, printMapItems, List.length_cons, List.length_append]
    omega
  | (k, v) :: kv :: kvs => by
    have h1 := needVal_le_print v
    have h2 := needMap_le_print (kv :: kvs)
    simp only [needMap, printMapItems, List.length_append, List.length_cons] at h2 ⊢
    omega

end

/-! ## Parser round-trip -/

set_option maxHeartbeats 1000000

theorem parse_print_roundtrip (fuel : Nat) :
    (∀ v rest, goodVal v = true → needVal v ≤ fuel → delimOk rest = true →
      parseVal fuel (printVal v ++ rest) = some (v, rest)) ∧
    (∀ vs rest, vs ≠ [] → goodList vs = true → needList vs ≤ fuel →
      parseListItems fuel (printListItems vs ++ ']' :: rest) = some (vs, rest)) ∧
    (∀ kvs rest, kvs ≠ [] → goodMap kvs = true → needMap kvs ≤ fuel →
      parseMapItems fuel (printMapItems kvs ++ '}' :: rest) = some (kvs, rest)) := by
  induction fuel with
  | zero =>
    refine ⟨?_, ?_, ?_⟩
    · intro v _ _ hn _
      exact absurd hn (by have := needVal_pos v; omega)
    · intro vs _ _ _ hn
      exact absurd hn (by have := needList_pos vs; omega)
    · intro kvs _ _ _ hn
      exact absurd hn (by have := needMap_pos kvs; omega)
  | succ fuel ih =>
    obtain ⟨ihV, ihL, ihM⟩ := ih
    refine ⟨?_, ?_, ?_⟩
    · intro v rest hg hn hd
      match v with
      | MetaValue.vStr s =>
        obtain ⟨sd⟩ := s
        have hgs : ∀ c ∈ sd, (fun d => !(d == '\'')) c = true := by
          have h1 : ∀ x ∈ sd, ¬x = '\'' := by simpa [goodVal] using hg
          intro c hc
          simpa using h1 c hc
        have htw := takeWhile_append_all hgs
          (Or.inr ⟨'\'', rest, rfl, by decide⟩)
        simp only [printVal]
        rw [show ('\'' :: (sd ++ ['\''])) ++ rest = '\'' :: (sd ++ '\'' :: rest) from by simp]
        simp only [parseVal]
        rw [htw.1, htw.2]
        simp
      | MetaValue.vInt n =>
        obtain ⟨c, t, hct⟩ := List.exists_cons_of_ne_nil (intChars_ne_nil n)
        have hmk := intChars_head_not_marker n hct
        have htw := takeWhile_append_all (intChars_all_atom n) (delimOk_cases hd)
        simp only [printVal]
        rw [hct, List.cons_append]
        simp only [parseVal]
        rw [if_neg hmk.1, if_neg hmk.2.1, if_neg hmk.2.2]
        rw [show c :: (t ++ rest) = intChars n ++ rest from by rw [hct]; rfl]
        rw [htw.1, htw.2, if_neg (intChars_ne_nil n), resolveScalar_intChars]
        rfl
      | MetaValue.vBool b =>
        cases b
        · have hall : ∀ x ∈ ['f', 'a', 'l', 's', 'e'], atomChar x = true := by decide
          have htw := takeWhile_append_all hall (delimOk_cases hd)
          simp only [printVal]
          rw [show (['f', 'a', 'l', 's', 'e'] : List Char) ++ rest
              = 'f' :: (['a', 'l', 's', 'e'] ++ rest) from rfl]
          simp only [parseVal]
          rw [if_neg (by decide : ¬('f' = '\'')), if_neg (by decide : ¬('f' = '[')),
            if_neg (by decide : ¬('f' = '{'))]
          rw [show 'f' :: (['a', 'l', 's', 'e'] ++ rest)
              = ['f', 'a', 'l', 's', 'e'] ++ rest from rfl]
          rw [htw.1, htw.2]
          rw [if_neg (by decide : ¬((['f', 'a', 'l', 's', 'e'] : List Char) = []))]
          rw [show resolveScalar (String.mk ['f', 'a', 'l', 's', 'e'])
              = some (MetaValue.vBool false) from rfl]
          rfl
        · have hall : ∀ x ∈ ['t', 'r', 'u', 'e'], atomChar x = true := by decide
          have htw := takeWhile_append_all hall (delimOk_cases hd)
          simp only [printVal]
          rw [show (['t', 'r', 'u', 'e'] : List Char) ++ rest
              = 't' :: (['r', 'u', 'e'] ++ rest) from rfl]
          simp only [parseVal]
          rw [if_neg (by decide : ¬('t' = '\'')), if_neg (by decide : ¬('t' = '[')),
            if_neg (by decide : ¬('t' = '{'))]
          rw [show 't' :: (['r', 'u', 'e'] ++ rest)
              = ['t', 'r', 'u', 'e'] ++ rest from rfl]
          rw [htw.1, htw.2]
          rw [if_neg (by decide : ¬((['t', 'r', 'u', 'e'] : List Char) = []))]
          rw [show resolveScalar (String.mk ['t', 'r', 'u', 'e'])
              = some (MetaValue.vBool true) from rfl]
          rfl
      | MetaValue.vNull =>
        have hall : ∀ x ∈ ['n', 'u', 'l', 'l'], atomChar x = true := by decide
        have htw := takeWhile_append_all hall (delimOk_cases hd)
        simp only [printVal]
        rw [show (['n', 'u', 'l', 'l'] : List Char) ++ rest
            = 'n' :: (['u', 'l', 'l'] ++ rest) from rfl]
        simp only [parseVal]
        rw [if_neg (by decide : ¬('n' = '\'')), if_neg (by decide : ¬('n' = '[')),
          if_neg (by decide : ¬('n' = '{'))]
        rw [show 'n' :: (['u', 'l', 'l'] ++ rest)
            = ['n', 'u', 'l', 'l'] ++ rest from rfl]
        rw [htw.1, htw.2]
        rw [if_neg (by decide : ¬((['n', 'u', 'l', 'l'] : List Char) = []))]
        rw [show resolveScalar (String.mk ['n', 'u', 'l', 'l'])
            = some MetaValue.vNull from rfl]
        rfl
      | MetaValue.vList [] =>
        simp only [printVal]
        rw [show (['[', ']'] : List Char) ++ rest = '[' :: (']' :: rest) from rfl]
        simp only [parseVal]
        rw [if_neg (by decide : ¬('[' = '\''))]
        simp
      | MetaValue.vList (v :: vs) =>
        have hgl : goodList (v :: vs) = true := by simpa [goodVal] using hg
        have hnl : needList (v :: vs) ≤ fuel := by
          simp only [needVal] at hn; omega
        obtain ⟨c0, t0, hpli, hc0r, hc0b⟩ :
            ∃ c0 t0, printListItems (v :: vs) = c0 :: t0 ∧ c0 ≠ ']' ∧ c0 ≠ '}' := by
          cases vs with
          | nil => simpa [printListItems] using printVal_head v
          | cons w ws =>
            obtain ⟨c0, t0, h1, h2, h3⟩ := printVal_head v
            refine ⟨c0, t0 ++ ',' :: printListItems (w :: ws), ?_, h2, h3⟩
            simp [printListItems, h1]
        simp only [printVal]
        rw [show ('[' :: (printListItems (v :: vs) ++ [']'])) ++ rest
            = '[' :: (printListItems (v :: vs) ++ ']' :: rest) from by simp]
        simp only [parseVal]
        rw [if_neg (by decide : ¬('[' = '\''))]
        rw [hpli, List.cons_append, List.head?_cons]
        rw [if_neg (fun hEq => hc0r (Option.some.inj hEq))]
        rw [show c0 :: (t0 ++ ']' :: rest) = printListItems (v :: vs) ++ ']' :: rest from by
          rw [hpli]; rfl]
        rw [ihL (v :: vs) rest (List.cons_ne_nil v vs) hgl hnl]
        simp
      | MetaValue.vMap [] =>
        simp only [printVal]
        rw [show (['{', '}'] : List Char) ++ rest = '{' :: ('}' :: rest) from rfl]
        simp only [parseVal]
        rw [if_neg (by decide : ¬('{' = '\'')), if_neg (by decide : ¬('{' = '['))]
        simp
      | MetaValue.vMap (kv :: kvs) =>
        have hgm : goodMap (kv :: kvs) = true := by simpa [goodVal] using hg
        have hnm : needMap (kv :: kvs) ≤ fuel := by
          simp only [needVal] at hn; omega
        obtain ⟨k, w⟩ := kv
        have hpmi : ∃ t0, printMapItems ((k, w) :: kvs) = '\'' :: t0 := by
          cases kvs with
          | nil => exact ⟨_, rfl⟩
          | cons kv2 kvs2 => exact ⟨_, rfl⟩
        obtain ⟨t0, hpmi⟩ := hpmi
        simp only [printVal]
        rw [show ('{' :: (printMapItems ((k, w) :: kvs) ++ ['}'])) ++ rest
            = '{' :: (printMapItems ((k, w) :: kvs) ++ '}' :: rest) from by simp]
        simp only [parseVal]
        rw [if_neg (by decide : ¬('{' = '\'')), if_neg (by decide : ¬('{' = '['))]
        rw [hpmi, List.cons_append, List.head?_cons]
        rw [if_neg (by decide : ¬(some '\'' = some '}'))]
        rw [show '\'' :: (t0 ++ '}' :: rest) = printMapItems ((k, w) :: kvs) ++ '}' :: rest from by
          rw [hpmi]; rfl]
        rw [ihM ((k, w) :: kvs) rest (List.cons_ne_nil _ _) hgm hnm]
        simp
    · intro vs rest hne hg hn
      match vs with
      | [v] =>
        have hgv : goodVal v = true := by
          simp only [goodList, Bool.and_eq_true] at hg
          exact hg.1
        have hnv : needVal v ≤ fuel := by
          simp only [needList] at hn; omega
        simp only [printListItems]
        simp only [parseListItems]
        rw [ihV v (']' :: rest) hgv hnv rfl]
        simp only [Option.some_bind, List.head?_cons, List.tail_cons]
        rw [if_neg (by decide : ¬(some ']' = some ','))]
        simp
      | v :: w :: vs' =>
        have hgv : goodVal v = true := by
          simp only [goodList, Bool.and_eq_true] at hg
          exact hg.1
        have hgl : goodList (w :: vs') = true := by
          simp only [goodList, Bool.and_eq_true] at hg ⊢
          exact ⟨hg.2.1, hg.2.2⟩
        have hnv : needVal v ≤ fuel := by
          simp only [needList] at hn; omega
        have hnl : needList (w :: vs') ≤ fuel := by
          simp only [needList] at hn ⊢; omega
        simp only [printListItems]
        rw [show (printVal v ++ ',' :: printListItems (w :: vs')) ++ ']' :: rest
            = printVal v ++ (',' :: (printListItems (w :: vs') ++ ']' :: rest)) from by simp]
        simp only [parseListItems]
        rw [ihV v (',' :: (printListItems (w :: vs') ++ ']' :: rest)) hgv hnv rfl]
        simp only [Option.some_bind, List.head?_cons, List.tail_cons]
        rw [if_pos trivial]
        rw [ihL (w :: vs') rest (List.cons_ne_nil _ _) hgl hnl]
        simp
    · intro kvs rest hne hg hn
      match kvs with
      | [(k, w)] =>
        obtain ⟨kd⟩ := k
        have hgk : ∀ c ∈ kd, (fun d => !(d == '\'')) c = true := by
          simp only [goodMap, Bool.and_eq_true] at hg
          have h1 : ∀ x ∈ kd, ¬x = '\'' := by
            have := hg.1.1
            simpa using this
          intro c hc
          simpa using h1 c hc
        have hgw : goodVal w = true := by
          simp only [goodMap, Bool.and_eq_true] at hg
          exact hg.1.2
        have hnw : needVal w ≤ fuel := by
          simp only [needMap] at hn; omega
        have htw := takeWhile_append_all hgk
          (Or.inr ⟨'\'', ':' :: (printVal w ++ '}' :: rest), rfl, by decide⟩)
        simp only [printMapItems]
        rw [show ('\'' :: (kd ++ '\'' :: ':' :: printVal w)) ++ '}' :: rest
            = '\'' :: (kd ++ ('\'' :: ':' :: (printVal w ++ '}' :: rest))) from by simp]
        simp only [parseMapItems]
        rw [htw.1, htw.2]
        simp only [List.head?_cons, List.tail_cons]
        rw [ihV w ('}' :: rest) hgw hnw rfl]
        simp only [Option.some_bind, List.head?_cons, List.tail_cons]
        rw [if_neg (by decide : ¬(some '}' = some ','))]
        simp
      | (k, w) :: kv2 :: kvs' =>
        obtain ⟨kd⟩ := k
        have hgk : ∀ c ∈ kd, (fun d => !(d == '\'')) c = true := by
          simp only [goodMap, Bool.and_eq_true] at hg
          have h1 : ∀ x ∈ kd, ¬x = '\'' := by
            have := hg.1.1
            simpa using this
          intro c hc
          simpa using h1 c hc
        have hgw : goodVal w = true := by
          simp only [goodMap, Bool.and_eq_true] at hg
          exact hg.1.2
        have hgm : goodMap (kv2 :: kvs') = true := by
          simp only [goodMap, Bool.and_eq_true] at hg
          obtain ⟨k2, w2⟩ := kv2
          simp only [goodMap, Bool.and_eq_true]
          exact hg.2
        have hnw : needVal w ≤ fuel := by
          simp only [needMap] at hn; omega
        have hnm : needMap (kv2 :: kvs') ≤ fuel := by
          obtain ⟨k2, w2⟩ := kv2
          simp only [needMap] at hn ⊢; omega
        have htw := takeWhile_append_all hgk
          (Or.inr ⟨'\'', ':' :: (printVal w ++ ',' :: (printMapItems (kv2 :: kvs') ++ '}' :: rest)),
            rfl, by decide⟩)
        simp only [printMapItems]
        rw [show (('\'' :: (kd ++ '\'' :: ':' :: printVal w)) ++ ',' :: printMapItems (kv2 :: kvs'))
              ++ '}' :: rest
            = '\'' :: (kd ++ ('\'' :: (':' :: (printVal w
              ++ ',' :: (printMapItems (kv2 :: kvs') ++ '}' :: rest))))) from by simp]
        simp only [parseMapItems]
        rw [htw.1, htw.2]
        simp only [List.head?_cons, List.tail_cons]
        rw [ihV w (',' :: (printMapItems (kv2 :: kvs') ++ '}' :: rest)) hgw hnw rfl]
        simp only [Option.some_bind, List.head?_cons, List.tail_cons]
        rw [if_pos trivial]
        rw [ihM (kv2 :: kvs') rest (List.cons_ne_nil _ _) hgm hnm]
        simp


theorem delimOk_nil : delimOk [] = true := rfl

theorem plainSafeChar_ne {c x : Char} (h : plainSafeChar c = true)
    (hx : plainSafeChar x = false) : c ≠ x := by
  intro heq
  rw [heq, hx] at h
  exact Bool.noConfusion h

theorem plainSafeChar_not_digit {c : Char} (h : plainSafeChar c = true) :
    isDigitCh c = false := by
  cases hd : isDigitCh c with
  | false => rfl
  | true =>
    have hm : c ∈ digitChars := List.mem_of_elem_eq_true hd
    fin_cases hm <;> exact absurd h (by decide)

theorem isIntString_of_plainSafe {c : Char} {t : List Char}
    (hc : plainSafeChar c = true) : isIntString (c :: t) = false := by
  have h1 : c ≠ '-' := plainSafeChar_ne hc (by decide)
  have h2 : isDigitCh c = false := plainSafeChar_not_digit hc
  have h3 : isNonzeroDigitCh c = false := by
    cases hz : isNonzeroDigitCh c with
    | false => rfl
    | true =>
      have hm : c ∈ nonzeroDigits := List.mem_of_elem_eq_true hz
      have hdd : isDigitCh c = true := by fin_cases hm <;> rfl
      rw [hdd] at h2
      exact Bool.noConfusion h2
  have h4 : (c == '0') = false := by
    cases h0 : c == '0' with
    | false => rfl
    | true =>
      have hc0 : c = '0' := by simpa using h0
      rw [hc0] at h2
      exact absurd h2 (by decide)
  simp [isIntString, decDigits, h1, h3, h4]

theorem yamlLoad_mk_parse {l : List Char} {c : Char} {t : List Char} (hl : l = c :: t)
    (hmarker : c = '\'' ∨ c = '[' ∨ c = '{') {v : MetaValue}
    (hparse : parseVal (2 * l.length + 4) l = some (v, [])) :
    yamlLoad (String.mk l) = some v := by
  subst hl
  simp only [yamlLoad]
  rw [if_pos hmarker, hparse]

theorem yamlLoad_exportValue (v : MetaValue) (h : goodTop v = true) :
    yamlLoad (exportValue v) = some v := by
  match v with
  | MetaValue.vStr s =>
    obtain ⟨sd⟩ := s
    match sd with
    | [] => exact absurd h (by decide)
    | c :: t =>
      have h' : (plainSafeStr (String.mk (c :: t)) && !isNullStr (String.mk (c :: t)) &&
          !isBoolTrueStr (String.mk (c :: t)) &&
          !isBoolFalseStr (String.mk (c :: t))) = true := h
      rw [Bool.and_eq_true, Bool.and_eq_true, Bool.and_eq_true] at h'
      obtain ⟨⟨⟨hps, hA⟩, hB⟩, hC⟩ := h'
      have hnull : isNullStr (String.mk (c :: t)) = false := by simpa using hA
      have hbt : isBoolTrueStr (String.mk (c :: t)) = false := by simpa using hB
      have hbf : isBoolFalseStr (String.mk (c :: t)) = false := by simpa using hC
      have hc : plainSafeChar c = true := by
        have hps2 : (!(c :: t).isEmpty && (c :: t).all plainSafeChar) = true := hps
        rw [Bool.and_eq_true] at hps2
        exact (List.all_eq_true.1 hps2.2) c (List.mem_cons_self c t)
      have hq : ¬(c = '\'' ∨ c = '[' ∨ c = '{') := by
        rintro (rfl | rfl | rfl) <;> exact absurd hc (by decide)
      have hint : isIntString (c :: t) = false := isIntString_of_plainSafe hc
      simp only [exportValue, yamlLoad]
      rw [if_neg hq]
      simp only [resolveScalar]
      rw [if_neg (by simp [hnull]), if_neg (by simp [hbt]), if_neg (by simp [hbf]),
        if_neg (by simp [hint]), if_pos (by simpa using hps)]
  | MetaValue.vInt n =>
    obtain ⟨c, t, hct⟩ := List.exists_cons_of_ne_nil (intChars_ne_nil n)
    have hmk := intChars_head_not_marker n hct
    simp only [exportValue]
    rw [show String.mk (intChars n) = String.mk (c :: t) from by rw [hct]]
    simp only [yamlLoad]
    rw [if_neg (by tauto)]
    rw [show String.mk (c :: t) = String.mk (intChars n) from by rw [hct]]
    exact resolveScalar_intChars n
  | MetaValue.vBool true => rfl
  | MetaValue.vBool false => rfl
  | MetaValue.vNull => rfl
  | MetaValue.vList vs =>
    have hgood : goodVal (MetaValue.vList vs) = true := by simpa [goodTop, goodVal] using h
    have hneed : needVal (MetaValue.vList vs) ≤
        2 * (printVal (MetaValue.vList vs)).length + 4 := by
      have := needVal_le_print (MetaValue.vList vs)
      omega
    have hparse := (parse_print_roundtrip
      (2 * (printVal (MetaValue.vList vs)).length + 4)).1 (MetaValue.vList vs) []
      hgood hneed delimOk_nil
    rw [List.append_nil] at hparse
    have hhead : ∃ t0, printVal (MetaValue.vList vs) = '[' :: t0 := by
      cases vs with
      | nil => exact ⟨_, rfl⟩
      | cons w ws => exact ⟨_, rfl⟩
    obtain ⟨t0, ht0⟩ := hhead
    exact yamlLoad_mk_parse ht0 (Or.inr (Or.inl rfl)) hparse
  | MetaValue.vMap kvs =>
    have hgood : goodVal (MetaValue.vMap kvs) = true := by simpa [goodTop, goodVal] using h
    have hneed : needVal (MetaValue.vMap kvs) ≤
        2 * (printVal (MetaValue.vMap kvs)).length + 4 := by
      have := needVal_le_print (MetaValue.vMap kvs)
      omega
    have hparse := (parse_print_roundtrip
      (2 * (printVal (MetaValue.vMap kvs)).length + 4)).1 (MetaValue.vMap kvs) []
      hgood hneed delimOk_nil
    rw [List.append_nil] at hparse
    have hhead : ∃ t0, printVal (MetaValue.vMap kvs) = '{' :: t0 := by
      cases kvs with
      | nil => exact ⟨_, rfl⟩
      | cons kv kvs2 => exact ⟨_, rfl⟩
    obtain ⟨t0, ht0⟩ := hhead
    exact yamlLoad_mk_parse ht0 (Or.inr (Or.inr rfl)) hparse

/-! ## Theorems for the claims -/

/-- Claim C5: for every one of the four `ModelConfigType` values, the derived
properties satisfy the cumulative-scope invariant: `load_fast_llm` implies
`load_base_model`, `load_base_model` implies `load_architecture`, and for the value
`none` all three are false. -/
theorem c5_model_config_type_cumulative_scopes (c : ModelConfigType) :
    (c.load_fast_llm = true → c.load_base_model = true) ∧
    (c.load_base_model = true → c.load_architecture = true) ∧
    (c = ModelConfigType.none →
      c.load_architecture = false ∧ c.load_base_model = false ∧
      c.load_fast_llm = false) := by
  cases c <;> simp [ModelConfigType.load_fast_llm, ModelConfigType.load_base_model,
    ModelConfigType.load_architecture]

/-- Witness for C5 at the concrete values `fast_llm`, `model` and `none`. -/
theorem c5_model_config_type_cumulative_scopes_witness :
    ModelConfigType.fast_llm.load_base_model = true ∧
    ModelConfigType.model.load_architecture = true ∧
    (ModelConfigType.none.load_architecture = false ∧
      ModelConfigType.none.load_base_model = false ∧
      ModelConfigType.none.load_fast_llm = false) :=
  ⟨(c5_model_config_type_cumulative_scopes ModelConfigType.fast_llm).1 (by decide),
   (c5_model_config_type_cumulative_scopes ModelConfigType.model).2.1 (by decide),
   (c5_model_config_type_cumulative_scopes ModelConfigType.none).2.2 rfl⟩

/-- Claim C3: validating a `CheckpointLoadMetadataConfig` whose resolved format has
`enforce_architecture_match` true and `load_config = none` fails (the assertion in
`_validate`, the spec's `ScopeViolation`), while `load_config = model` or `fast_llm`
passes validation. -/
theorem c3_enforce_architecture_match_validation (fmt : CheckpointFormat)
    (h : fmt.enforce_architecture_match = true) :
    CheckpointLoadMetadataConfig.validateOk
      { format := fmt, load_config := ModelConfigType.none } = false ∧
    CheckpointLoadMetadataConfig.validateOk
      { format := fmt, load_config := ModelConfigType.model } = true ∧
    CheckpointLoadMetadataConfig.validateOk
      { format := fmt, load_config := ModelConfigType.fast_llm } = true := by
  simp [CheckpointLoadMetadataConfig.validateOk, h, ModelConfigType.load_architecture]

/-- Witness for C3 at the distributed format, whose
`enforce_architecture_match` flag is true. -/
theorem c3_enforce_architecture_match_validation_witness :
    DistributedCheckpointFormat.enforce_architecture_match = true ∧
    (CheckpointLoadMetadataConfig.validateOk
      { format := DistributedCheckpointFormat, load_config := ModelConfigType.none } = false ∧
    CheckpointLoadMetadataConfig.validateOk
      { format := DistributedCheckpointFormat, load_config := ModelConfigType.model } = true ∧
    CheckpointLoadMetadataConfig.validateOk
      { format := DistributedCheckpointFormat, load_config := ModelConfigType.fast_llm } = true) :=
  ⟨rfl, c3_enforce_architecture_match_validation DistributedCheckpointFormat rfl⟩

/-- Claim C6: the `parameters_per_file` validator rejects `2^20 - 1` and accepts
`2^20` as well as the default `2^32`. -/
theorem c6_parameters_per_file_bounds :
    parameters_per_file_valid (2 ^ 20 - 1) = false ∧
    parameters_per_file_valid (2 ^ 20) = true ∧
    parameters_per_file_valid parameters_per_file_default = true := by decide

/-- Claim C9: the `adam_beta1`/`adam_beta2` validator rejects every value outside the
inclusive range `[0, 1]` and accepts every value inside it, at validation time. -/
theorem c9_adam_beta_range (x : ℚ) :
    ((x < 0 ∨ 1 < x) → adam_beta_valid x = false) ∧
    ((0 ≤ x ∧ x ≤ 1) → adam_beta_valid x = true) := by
  constructor
  · rintro (h | h) <;>
      simp [adam_beta_valid, assertInRangeIncl, not_le.mpr h]
  · rintro ⟨h0, h1⟩
    simp [adam_beta_valid, assertInRangeIncl, h0, h1]

/-- Witness for C9 at the concrete values `2` (rejected) and `1/2` (accepted). -/
theorem c9_adam_beta_range_witness :
    adam_beta_valid 2 = false ∧ adam_beta_valid (1 / 2) = true :=
  ⟨(c9_adam_beta_range 2).1 (Or.inr (by norm_num)),
   (c9_adam_beta_range (1 / 2)).2 (by norm_num)⟩

/-- Claim C8: `compare_log_fn` selects the hard-error function `ValueError` exactly
when `load_config.load_architecture` is true, and selects `logger.warning` when
`load_config = none`. -/
theorem c8_compare_log_fn_selection (c : CheckpointLoadMetadataConfig) :
    (c.compare_log_fn = CheckpointLoadMetadataConfig.CompareLogFn.valueError ↔
      c.load_config.load_architecture = true) ∧
    (c.load_config = ModelConfigType.none →
      c.compare_log_fn = CheckpointLoadMetadataConfig.CompareLogFn.loggerWarning) := by
  obtain ⟨fmt, lc⟩ := c
  cases lc <;>
    simp [CheckpointLoadMetadataConfig.compare_log_fn, ModelConfigType.load_architecture]

/-- Witness for C8 at a concrete config with `load_config = none`. -/
theorem c8_compare_log_fn_selection_witness :
    CheckpointLoadMetadataConfig.compare_log_fn
      { format := StateDictCheckpointFormat, load_config := ModelConfigType.none } =
      CheckpointLoadMetadataConfig.CompareLogFn.loggerWarning :=
  (c8_compare_log_fn_selection
    { format := StateDictCheckpointFormat, load_config := ModelConfigType.none }).2 rfl

/-- Claim C10: a checkpoint state config parsed from an empty dict (no explicit
values) has `model_weights = true` and `optimizer_state = false`, with no warning. -/
theorem c10_state_config_defaults :
    checkpointStateConfigBaseFromDict [] =
      ({ model_weights := true, optimizer_state := false }, 0) := rfl

/-- Claim C7: parsing a dict with legacy key `load_weights: false` yields
`model_weights = false` with exactly one deprecation warning; likewise
`load_optimizer` is remapped to `optimizer_state`; with both legacy keys present the
parse warns exactly once per offending key. -/
theorem c7_legacy_state_keys_remapped :
    checkpointStateConfigBaseFromDict [("load_weights", DVal.dBool false)] =
      ({ model_weights := false, optimizer_state := false }, 1) ∧
    checkpointStateConfigBaseFromDict [("load_optimizer", DVal.dBool true)] =
      ({ model_weights := true, optimizer_state := true }, 1) ∧
    checkpointStateConfigBaseFromDict
      [("load_weights", DVal.dBool false), ("load_optimizer", DVal.dBool true)] =
      ({ model_weights := false, optimizer_state := true }, 2) := by
  refine ⟨rfl, rfl, rfl⟩

/-- Claim C2 counterexample: parsing a dict containing only
`model_type: "huggingface"` (no `format` key) does not yield format
`"huggingface"`: the `model_type` value only replaces `format` when the dict's
current `format` value is `"huggingface"` or `"external"`, so the parsed format is
the default `"state_dict"`. -/
theorem c2_counterexample_no_format_key :
    (checkpointConfigBaseFromDict [("model_type", DVal.dStr "huggingface")]).1 =
      "state_dict" ∧
    "state_dict" ≠ "huggingface" := by
  refine ⟨rfl, by decide⟩

/-- Claim C2 (amended): parsing a dict with `model_type` present warns once and
removes `model_type`; the `model_type` value replaces `format` only when the current
`format` value is `"huggingface"` or `"external"` — with no `format` key the parsed
format is the default `"state_dict"`, and with `format = "distributed"` the format
is preserved. -/
theorem c2_model_type_legacy_handling :
    checkpointConfigBaseFromDict [("model_type", DVal.dStr "huggingface")] =
      ("state_dict", 1) ∧
    checkpointConfigBaseFromDict
      [("format", DVal.dStr "distributed"), ("model_type", DVal.dStr "llama")] =
      ("distributed", 1) ∧
    (checkpointConfigBaseFromDictPre
      [("format", DVal.dStr "distributed"), ("model_type", DVal.dStr "llama")]).1 =
      [("format", DVal.dStr "distributed")] ∧
    checkpointConfigBaseFromDict
      [("format", DVal.dStr "huggingface"), ("model_type", DVal.dStr "llama")] =
      ("llama", 1) := by
  refine ⟨rfl, rfl, rfl, rfl⟩

/-- Claim C4 counterexample: calling `setup` a second time on a config that has not
been validated does not raise — `setup` only asserts that `_validated` is false, and
it does not set that flag. -/
theorem c4_counterexample_setup_twice_ok :
    ((CheckpointConfigBaseState.setup { format := "state_dict" } id).bind
      (fun s => s.setup id)) =
      some { format := "state_dict", validated := false } := rfl

/-- Claim C4 (amended): calling `setup` after the config has been validated (the
`_validated` flag is true) fails with the programming-error assertion, while calling
`setup` a second time before validation succeeds. -/
theorem c4_setup_lifecycle (s : CheckpointConfigBaseState)
    (resolve : String → String) :
    (s.validate).setup resolve = Option.none ∧
    (s.validated = false →
      ∃ s1, s.setup resolve = some s1 ∧ (s1.setup resolve).isSome = true) := by
  constructor
  · simp [CheckpointConfigBaseState.setup, CheckpointConfigBaseState.validate]
  · intro h
    refine ⟨{ format := resolve s.format, validated := s.validated }, ?_, ?_⟩ <;>
      simp [CheckpointConfigBaseState.setup, h]

/-- Witness for C4 at a concrete unvalidated config. -/
theorem c4_setup_lifecycle_witness :
    ∃ s1, CheckpointConfigBaseState.setup { format := "state_dict" } id = some s1 ∧
      (s1.setup id).isSome = true :=
  (c4_setup_lifecycle { format := "state_dict" } id).2 rfl

/-- Claim C1 (amended): decoding after encoding returns the original metadata
mapping whenever every value is an int, a boolean, `None`, a nested
sequence/mapping of the modelled grammar, or an inert plain string (nonempty,
letters/underscores only, not one of the loader's null/boolean words).  String
values the loader retypes — null or boolean words, integer literals, and every
other scalar spelling the loader resolves — are excluded: on them decoding does not
return the original string, as the counterexample shows for `"1"`. -/
theorem c1_metadata_roundtrip_good (m : List (String × MetaValue))
    (h : ∀ kv ∈ m, goodTop kv.2 = true) :
    import_safetensors_metadata (export_safetensors_metadata m) = some m := by
  induction m with
  | nil => rfl
  | cons kv t ih =>
    obtain ⟨k, v⟩ := kv
    have h1 := yamlLoad_exportValue v (h (k, v) (List.mem_cons_self _ _))
    have h2 := ih fun kv hkv => h kv (List.mem_cons_of_mem _ hkv)
    simp only [export_safetensors_metadata, List.map_cons] at h2 ⊢
    simp only [import_safetensors_metadata]
    rw [h1, h2]

/-- Claim C1 counterexample: the mapping `{"format": "1"}` has a scalar (string)
value, yet decoding the encoded form yields the integer `1`, not the string `"1"`:
`str` erases the string/int distinction and the loader resolves the plain scalar
`1` as an integer. -/
theorem c1_counterexample_numeric_string :
    import_safetensors_metadata (export_safetensors_metadata
      [("format", MetaValue.vStr "1")]) = some [("format", MetaValue.vInt 1)] ∧
    import_safetensors_metadata (export_safetensors_metadata
      [("format", MetaValue.vStr "1")]) ≠ some [("format", MetaValue.vStr "1")] := by
  constructor
  · rfl
  · intro hEq
    rw [show import_safetensors_metadata (export_safetensors_metadata
      [("format", MetaValue.vStr "1")]) = some [("format", MetaValue.vInt 1)]
      from rfl] at hEq
    injection hEq with h1
    injection h1 with h2 h3
    injection h2 with hk hv
    exact MetaValue.noConfusion hv

/-- Witness for C1 at a concrete six-entry metadata mapping with nested values. -/
theorem c1_metadata_roundtrip_good_witness :
    (∀ kv ∈ ([("format", MetaValue.vStr "pt"), ("n", MetaValue.vInt 7),
        ("flag", MetaValue.vBool true), ("opt", MetaValue.vNull),
        ("cfg", MetaValue.vMap [("layers", MetaValue.vInt 2),
          ("name", MetaValue.vStr "gpt")]),
        ("sizes", MetaValue.vList [MetaValue.vInt 1, MetaValue.vInt (-2)])] :
        List (String × MetaValue)), goodTop kv.2 = true) ∧
    import_safetensors_metadata (export_safetensors_metadata
      [("format", MetaValue.vStr "pt"), ("n", MetaValue.vInt 7),
        ("flag", MetaValue.vBool true), ("opt", MetaValue.vNull),
        ("cfg", MetaValue.vMap [("layers", MetaValue.vInt 2),
          ("name", MetaValue.vStr "gpt")]),
        ("sizes", MetaValue.vList [MetaValue.vInt 1, MetaValue.vInt (-2)])]) =
      some [("format", MetaValue.vStr "pt"), ("n", MetaValue.vInt 7),
        ("flag", MetaValue.vBool true), ("opt", MetaValue.vNull),
        ("cfg", MetaValue.vMap [("layers", MetaValue.vInt 2),
          ("name", MetaValue.vStr "gpt")]),
        ("sizes", MetaValue.vList [MetaValue.vInt 1, MetaValue.vInt (-2)])] :=
  ⟨by decide, c1_metadata_roundtrip_good _ (by decide)⟩

end FastLLM
